import Mathlib

/-!
Verification of the retrieval-validation-screening-citation pipeline of
`streamlit_app_gemini.py`.  Python values, strings and the library calls the
pipeline makes are shallowly embedded: strings are lists of characters,
dynamically typed Python values are a `PyVal` inductive, fallible code returns
`Except`, and network calls are oracle parameters.  Character classes
(whitespace, digits, lowercasing) are modelled on the ASCII range, which is the
range exercised by the pipeline's own data.
-/

/-- Dynamically typed Python value, covering the shapes that flow through the
pipeline: strings, ints, `None`, lists and string-keyed dicts (kept as ordered
association lists; `dict.get` takes the first binding). -/
inductive PyVal where
  | str : String → PyVal
  | int : Int → PyVal
  | none : PyVal
  | list : List PyVal → PyVal
  | dict : List (String × PyVal) → PyVal
deriving Repr

/-- Python truthiness: empty string/list/dict, `None` and `0` are falsy. -/
def pyTruthy : PyVal → Bool
  | PyVal.str s => !s.isEmpty
  | PyVal.int n => n != 0
  | PyVal.none => false
  | PyVal.list l => !l.isEmpty
  | PyVal.dict d => !d.isEmpty

/-- `d.get(k)` on a dict: the first value bound to `k`, else `None`. -/
def pyGet (d : List (String × PyVal)) (k : String) : PyVal :=
  match d.find? (fun p => p.1 == k) with
  | some p => p.2
  | Option.none => PyVal.none

mutual
/-- `repr()` of a value (used by `str()` on non-string values).  String
escaping inside nested containers is not modelled; no claim depends on it. -/
def pyRepr : PyVal → String
  | PyVal.str s => "\x27" ++ s ++ "\x27"
  | PyVal.int n => toString n
  | PyVal.none => "None"
  | PyVal.list l => "[" ++ pyReprList l ++ "]"
  | PyVal.dict d => "\x7b" ++ pyReprDict d ++ "\x7d"

/-- Comma-joined reprs of a list's elements. -/
def pyReprList : List PyVal → String
  | [] => ""
  | [v] => pyRepr v
  | v :: rest => pyRepr v ++ ", " ++ pyReprList rest

/-- Comma-joined `key: value` reprs of a dict's bindings. -/
def pyReprDict : List (String × PyVal) → String
  | [] => ""
  | [(k, v)] => "\x27" ++ k ++ "\x27: " ++ pyRepr v
  | (k, v) :: rest => "\x27" ++ k ++ "\x27: " ++ pyRepr v ++ ", " ++ pyReprDict rest
end

/-- `str()` of a value: strings unchanged, everything else its repr. -/
def pyStr : PyVal → String
  | PyVal.str s => s
  | v => pyRepr v

/-- ASCII whitespace, the model of Python's `\s` and `str.strip` class. -/
def isPyWs (c : Char) : Bool :=
  c = ' ' || c = '\t' || c = '\n' || c = '\r' || c = '\x0b' || c = '\x0c'

/-- `str.strip()` on a character list. -/
def pyStripL (s : List Char) : List Char :=
  ((s.dropWhile isPyWs).reverse.dropWhile isPyWs).reverse

/-- `str.lower()` on a character list (ASCII model). -/
def pyLowerL (s : List Char) : List Char := s.map Char.toLower

/-- Value of a decimal digit run, as `int()` computes it ("007" is 7). -/
def digitsToNat (ds : List Char) : Nat :=
  ds.foldl (fun n c => n * 10 + (c.toNat - '0'.toNat)) 0

mutual
/-- Digits of `int(str)` after the optional sign: a leading digit, then digits
with single underscores allowed between digits (CPython `int` literal rule). -/
def parseUDigitsGo (acc : Nat) : List Char → Option Nat
  | [] => some acc
  | c :: cs =>
    if c.isDigit then parseUDigitsGo (acc * 10 + (c.toNat - '0'.toNat)) cs
    else if c = '_' then parseUDigitsUnd acc cs
    else Option.none

/-- After an underscore: exactly one more digit must follow. -/
def parseUDigitsUnd (acc : Nat) : List Char → Option Nat
  | [] => Option.none
  | c :: cs =>
    if c.isDigit then parseUDigitsGo (acc * 10 + (c.toNat - '0'.toNat)) cs
    else Option.none
end

/-- Unsigned part of `int(str)`: nonempty, must start with a digit. -/
def parseUDigits : List Char → Option Nat
  | [] => Option.none
  | c :: cs => if c.isDigit then parseUDigitsGo (c.toNat - '0'.toNat) cs else Option.none

/-- CPython `int(s)` on a string: strip surrounding whitespace, optional sign,
then digits with underscore separators; anything else raises (here: `none`). -/
def pyIntOfString? (cs : List Char) : Option Int :=
  match pyStripL cs with
  | [] => Option.none
  | c :: ds =>
    if c = '+' then (parseUDigits ds).map Int.ofNat
    else if c = '-' then (parseUDigits ds).map (fun n => -(Int.ofNat n))
    else (parseUDigits (c :: ds)).map Int.ofNat

/-- `year_from_date` (streamlit_app_gemini.py:42): `None` for falsy input,
else `int(str(s)[:4])` with every exception mapped to `None`. -/
def year_from_date (v : PyVal) : Option Int :=
  if pyTruthy v then pyIntOfString? ((pyStr v).toList.take 4) else Option.none

/-- `startsWith pat s`: `pat` is a leading run of `s` (Python `str.startswith`,
used to model literal-pattern `re.sub` scanning). -/
def startsWith : List Char → List Char → Bool
  | [], _ => true
  | _ :: _, [] => false
  | p :: ps, c :: cs => p == c && startsWith ps cs

theorem startsWith_length_le (pat s : List Char) (h : startsWith pat s = true) :
    pat.length ≤ s.length := by
  induction pat generalizing s with
  | nil => simp
  | cons p ps ih =>
    cases s with
    | nil => simp [startsWith] at h
    | cons c cs =>
      simp only [startsWith, Bool.and_eq_true] at h
      simpa using ih cs h.2

/-- Fuel-driven scanner behind `removeAllSub`; fuel at least the text length
makes the fuel-exhausted branch unreachable. -/
def removeAllGo (pat : List Char) : Nat → List Char → List Char
  | 0, s => s
  | _ + 1, [] => []
  | fuel + 1, c :: cs =>
    if pat ≠ [] ∧ startsWith pat (c :: cs) = true
    then removeAllGo pat fuel ((c :: cs).drop pat.length)
    else c :: removeAllGo pat fuel cs

/-- `re.sub(pat, "", s)` for a literal nonempty pattern: one left-to-right
pass deleting non-overlapping occurrences; deleted spans are not rescanned. -/
def removeAllSub (pat s : List Char) : List Char := removeAllGo pat s.length s

/-- Fuel-driven digit extraction behind `natDecimal`. -/
def natDecimalGo : Nat → Nat → List Char
  | 0, _ => []
  | fuel + 1, n =>
    if n < 10 then [Char.ofNat ('0'.toNat + n)]
    else natDecimalGo fuel (n / 10) ++ [Char.ofNat ('0'.toNat + n % 10)]

/-- Decimal digits of a natural number, as `str(int)` renders it. -/
def natDecimal (n : Nat) : List Char := natDecimalGo (n + 1) n

/-- The literal citation marker `"[" + str(v) + "]"` that the enforcer deletes. -/
def markerLit (v : Nat) : List Char := '[' :: natDecimal v ++ [']']

/-- Match of `\[(\d+)\]` anchored at the head of the list: an opening bracket,
one or more digits, a closing bracket; yields the digit run's value. -/
def matchMarkerAt : List Char → Option Nat
  | '[' :: rest =>
    match rest.span Char.isDigit with
    | (ds, rest2) =>
      match ds, rest2 with
      | [], _ => Option.none
      | _ :: _, ']' :: _ => some (digitsToNat ds)
      | _ :: _, _ => Option.none
  | _ => Option.none

/-- Values of all matches of `re.finditer(r"\[(\d+)\]", text)`.  Matches of
this pattern cannot overlap (a match's interior holds no opening bracket), so
scanning every position equals the engine's scan-past-each-match order. -/
def markerValues : List Char → List Nat
  | [] => []
  | c :: cs =>
    match matchMarkerAt (c :: cs) with
    | some v => v :: markerValues cs
    | Option.none => markerValues cs

/-- Distinct elements in first-occurrence order: the model of collecting the
matched values into a Python `set`. -/
def dedupNats : List Nat → List Nat
  | [] => []
  | x :: xs => if x ∈ xs then dedupNats xs else x :: dedupNats xs

/-- Insertion step of descending sort. -/
def insertDesc (x : Nat) : List Nat → List Nat
  | [] => [x]
  | y :: ys => if x ≥ y then x :: y :: ys else y :: insertDesc x ys

/-- `sorted(values, reverse=True)`. -/
def sortDesc (l : List Nat) : List Nat := l.foldr insertDesc []

/-- `enforce_citation_integrity` (streamlit_app_gemini.py:370): collect the
distinct values of all `[digits]` markers, and for each invalid value `bad`
(below 1 or above `n_sources`), in descending order, delete every literal
occurrence of `"[" + str(bad) + "]"`. -/
def enforce_citation_integrity (text : List Char) (n_sources : Nat) : List Char :=
  let used := dedupNats (markerValues text)
  let invalid := used.filter (fun i => decide (i < 1 ∨ n_sources < i))
  (sortDesc invalid).foldl (fun fixed bad => removeAllSub (markerLit bad) fixed) text

theorem mem_dedupNats {x : Nat} {l : List Nat} : x ∈ dedupNats l ↔ x ∈ l := by
  induction l with
  | nil => simp [dedupNats]
  | cons a as ih =>
    by_cases h : a ∈ as
    · rw [dedupNats, if_pos h, ih]
      constructor
      · exact fun hx => List.mem_cons.mpr (Or.inr hx)
      · intro hx
        rcases List.mem_cons.mp hx with e | m
        · exact e ▸ h
        · exact m
    · rw [dedupNats, if_neg h]
      simp [ih]

theorem enforce_eq_self_of_no_invalid (y : List Char) (n : Nat)
    (h : (markerValues y).filter (fun i => decide (i < 1 ∨ n < i)) = []) :
    enforce_citation_integrity y n = y := by
  have hd : (dedupNats (markerValues y)).filter (fun i => decide (i < 1 ∨ n < i)) = [] := by
    rw [List.filter_eq_nil_iff] at h ⊢
    intro a ha
    exact h a (mem_dedupNats.mp ha)
  have hdef : enforce_citation_integrity y n
      = (sortDesc ((dedupNats (markerValues y)).filter
            (fun i => decide (i < 1 ∨ n < i)))).foldl
          (fun fixed bad => removeAllSub (markerLit bad) fixed) y := rfl
  rw [hdef, hd]
  rfl

/-- Claim C1 (code bug): with ten sources the text "[012]" carries exactly one
citation marker, of value 12, which is out of range; the enforcer nevertheless
returns the text unchanged, because deletion only targets the canonical
literal "[12]", so a marker written with a leading zero survives — against the
claim and against the function's own docstring (delete every invalid
citation, e.g. [12] when there are only 10 sources). -/
theorem C1_enforcer_leaves_invalid_marker :
    enforce_citation_integrity "[012]".toList 10 = "[012]".toList
    ∧ markerValues "[012]".toList = [12]
    ∧ ¬ (1 ≤ 12 ∧ 12 ≤ 10) :=
  ⟨by decide, by decide, by decide⟩

/-- Claim C4 counterexample: on "[2[2]]" with one source, the single pass
deletes the inner "[2]" and thereby creates a fresh "[2]" out of the
surrounding characters, so a second pass removes more: the enforcer is not
idempotent on this input. -/
theorem C4_counterexample :
    enforce_citation_integrity "[2[2]]".toList 1 = "[2]".toList
    ∧ enforce_citation_integrity (enforce_citation_integrity "[2[2]]".toList 1) 1 = []
    ∧ enforce_citation_integrity (enforce_citation_integrity "[2[2]]".toList 1) 1
        ≠ enforce_citation_integrity "[2[2]]".toList 1 :=
  ⟨by decide, by decide, by decide⟩

/-- Claim C4 (amended): the enforcer is idempotent on every text and bound for
which its first pass leaves no invalid citation marker; the counterexample
shows a pass can create a fresh invalid marker, so this guard cannot be
dropped. -/
theorem C4_enforce_idempotent (t : List Char) (n : Nat)
    (h : (markerValues (enforce_citation_integrity t n)).filter
        (fun i => decide (i < 1 ∨ n < i)) = []) :
    enforce_citation_integrity (enforce_citation_integrity t n) n
      = enforce_citation_integrity t n :=
  enforce_eq_self_of_no_invalid _ n h

/-- Witness for Claim C4's amended theorem at a concrete clean text. -/
theorem C4_witness :
    enforce_citation_integrity (enforce_citation_integrity "ok [1][2]".toList 2) 2
      = enforce_citation_integrity "ok [1][2]".toList 2 :=
  C4_enforce_idempotent "ok [1][2]".toList 2 (by decide)

theorem isPyWs_of_digit (c : Char) (h : c.isDigit = true) : isPyWs c = false := by
  by_contra hw
  rw [Bool.not_eq_false] at hw
  simp only [isPyWs, Bool.or_eq_true, decide_eq_true_eq] at hw
  have hflat : c = ' ' ∨ c = '\t' ∨ c = '\n' ∨ c = '\x0d' ∨ c = '\x0b' ∨ c = '\x0c' := by
    tauto
  rcases hflat with h1 | h1 | h1 | h1 | h1 | h1 <;> (rw [h1] at h; exact absurd h (by decide))

theorem pyStripL_id (l : List Char) (h : ∀ c ∈ l, isPyWs c = false) : pyStripL l = l := by
  unfold pyStripL
  have h1 : l.dropWhile isPyWs = l := by
    cases l with
    | nil => rfl
    | cons a as => simp [List.dropWhile_cons, h a (by simp)]
  rw [h1]
  have h2 : l.reverse.dropWhile isPyWs = l.reverse := by
    cases hr : l.reverse with
    | nil => rfl
    | cons a as =>
      have ha : a ∈ l := by
        have : a ∈ l.reverse := by rw [hr]; simp
        simpa using this
      simp [List.dropWhile_cons, h a ha]
  rw [h2, List.reverse_reverse]

theorem parseUDigitsGo_digits (cs : List Char) :
    ∀ acc : Nat, (∀ c ∈ cs, c.isDigit = true) →
      parseUDigitsGo acc cs
        = some (cs.foldl (fun n c => n * 10 + (c.toNat - '0'.toNat)) acc) := by
  induction cs with
  | nil => intro acc _; rfl
  | cons c cs ih =>
    intro acc h
    have hc := h c (by simp)
    rw [parseUDigitsGo, if_pos hc, ih _ (fun c' hc' => h c' (by simp [hc']))]
    rfl

theorem parseUDigits_digits (ds : List Char) (hne : ds ≠ [])
    (h : ∀ c ∈ ds, c.isDigit = true) :
    parseUDigits ds = some (digitsToNat ds) := by
  cases ds with
  | nil => exact absurd rfl hne
  | cons c cs =>
    have hc := h c (by simp)
    rw [parseUDigits, if_pos hc,
      parseUDigitsGo_digits cs _ (fun c' hc' => h c' (by simp [hc']))]
    simp [digitsToNat]

theorem pyIntOfString_digits (ds : List Char) (hne : ds ≠ [])
    (h : ∀ c ∈ ds, c.isDigit = true) :
    pyIntOfString? ds = some (digitsToNat ds : Int) := by
  have hs : pyStripL ds = ds := pyStripL_id ds (fun c hc => isPyWs_of_digit c (h c hc))
  cases ds with
  | nil => exact absurd rfl hne
  | cons c cs =>
    have hc := h c (by simp)
    have hplus : ¬ (c = '+') := by intro e; subst e; exact absurd hc (by decide)
    have hminus : ¬ (c = '-') := by intro e; subst e; exact absurd hc (by decide)
    unfold pyIntOfString?
    rw [hs]
    simp only [if_neg hplus, if_neg hminus, parseUDigits_digits _ hne h, Option.map_some']
    rfl

/-- Claim C9 counterexample: the first four characters of "-123" are not all
digits, yet `year_from_date` returns -123 rather than `None`, because CPython
`int()` accepts a sign (and surrounding whitespace, and underscores): the
claim's "None when those characters are not numeric" fails. -/
theorem C9_counterexample :
    year_from_date (PyVal.str "-123") = some (-123)
    ∧ ¬ (∀ c ∈ ("-123".toList.take 4), c.isDigit = true) :=
  ⟨by decide, by decide⟩

/-- Claim C9 (amended): `year_from_date` is total by construction (every
exception is mapped to `None`); it returns `None` on falsy input; when the
input is truthy and the first four characters of its string form are a
nonempty run of decimal digits, it returns their value; and whenever those
characters do not parse as a CPython int literal (sign and underscores
included) it returns `None`. -/
theorem C9_year_from_date (v : PyVal) :
    (pyTruthy v = false → year_from_date v = Option.none)
    ∧ (pyTruthy v = true →
        ((pyStr v).toList.take 4) ≠ [] →
        (∀ c ∈ (pyStr v).toList.take 4, c.isDigit = true) →
        year_from_date v = some (digitsToNat ((pyStr v).toList.take 4) : Int))
    ∧ (pyIntOfString? ((pyStr v).toList.take 4) = Option.none →
        year_from_date v = Option.none) := by
  refine ⟨fun hf => ?_, fun ht hne hd => ?_, fun hp => ?_⟩
  · rw [year_from_date, if_neg (by simp [hf])]
  · rw [year_from_date, if_pos ht, pyIntOfString_digits _ hne hd]
  · rw [year_from_date]
    by_cases ht : pyTruthy v = true
    · rw [if_pos ht, hp]
    · rw [if_neg ht]

/-- Witness for Claim C9's amended theorem at a concrete date string. -/
theorem C9_witness : year_from_date (PyVal.str "2015-06-01") = some 2015 := by
  have h := (C9_year_from_date (PyVal.str "2015-06-01")).2.1 (by decide) (by decide) (by decide)
  rw [h]
  decide

/-- Name resolution for one author dict (streamlit_app_gemini.py:67):
`a.get("name") or (a.get("author") or {}).get("display_name")`.  A truthy
non-dict "author" value makes CPython raise AttributeError (strings have no
`.get`), modelled as `Except.error`. -/
def resolveName (d : List (String × PyVal)) : Except String PyVal :=
  if pyTruthy (pyGet d "name") then Except.ok (pyGet d "name")
  else if pyTruthy (pyGet d "author") then
    match pyGet d "author" with
    | PyVal.dict d2 => Except.ok (pyGet d2 "display_name")
    | _ => Except.error "AttributeError"
  else Except.ok (pyGet ([] : List (String × PyVal)) "display_name")

/-- Element loop of `normalize_author_list`: strings pass through, dicts
contribute their resolved name when truthy, all other entries are skipped. -/
def normAuthorsGo : List PyVal → Except String (List PyVal)
  | [] => Except.ok []
  | a :: rest =>
    match a with
    | PyVal.str s => do
        let r ← normAuthorsGo rest
        Except.ok (PyVal.str s :: r)
    | PyVal.dict d => do
        let n ← resolveName d
        let r ← normAuthorsGo rest
        Except.ok (if pyTruthy n then n :: r else r)
    | _ => normAuthorsGo rest

/-- `normalize_author_list` (streamlit_app_gemini.py:59): the empty list for
any non-list argument, else the element loop. -/
def normalize_author_list : PyVal → Except String (List PyVal)
  | PyVal.list l => normAuthorsGo l
  | _ => Except.ok []

/-- The value `resolveName` yields when it does not raise (claim-side mirror
used to state what the loop extracts). -/
def resolvedName (d : List (String × PyVal)) : PyVal :=
  if pyTruthy (pyGet d "name") then pyGet d "name"
  else if pyTruthy (pyGet d "author") then
    match pyGet d "author" with
    | PyVal.dict d2 => pyGet d2 "display_name"
    | _ => PyVal.none
  else PyVal.none

/-- Claim C10's per-entry description: a string entry passes through
unchanged, a dict entry contributes its resolvable display name when that
name is truthy, every other entry is dropped. -/
def claimAuthorEntry : PyVal → Option PyVal
  | PyVal.str s => some (PyVal.str s)
  | PyVal.dict d => if pyTruthy (resolvedName d) then some (resolvedName d) else Option.none
  | _ => Option.none

/-- Guard under which the loop cannot raise: each dict entry either has a
truthy "name", or its "author" value is falsy or itself a dict. -/
def authorEntryOk : PyVal → Bool
  | PyVal.dict d =>
      pyTruthy (pyGet d "name")
      || !(pyTruthy (pyGet d "author"))
      || (match pyGet d "author" with | PyVal.dict _ => true | _ => false)
  | _ => true

theorem resolveName_ok (d : List (String × PyVal))
    (h : authorEntryOk (PyVal.dict d) = true) :
    resolveName d = Except.ok (resolvedName d) := by
  by_cases hn : pyTruthy (pyGet d "name") = true
  · rw [resolveName, if_pos hn, resolvedName, if_pos hn]
  · have hn' : pyTruthy (pyGet d "name") = false := by simpa using hn
    by_cases hat : pyTruthy (pyGet d "author") = true
    · simp only [authorEntryOk, hn', hat, Bool.false_or, Bool.not_true, Bool.or_eq_true] at h
      generalize hau : pyGet d "author" = au at h
      cases au with
      | dict d2 =>
          rw [resolveName, if_neg (by simp [hn']), if_pos hat, hau,
            resolvedName, if_neg (by simp [hn']), if_pos hat, hau]
      | str s => exact absurd h (by simp)
      | int n => exact absurd h (by simp)
      | none => exact absurd h (by simp)
      | list l => exact absurd h (by simp)
    · have hat' : pyTruthy (pyGet d "author") = false := by simpa using hat
      rw [resolveName, if_neg (by simp [hn']), if_neg (by simp [hat']),
        resolvedName, if_neg (by simp [hn']), if_neg (by simp [hat'])]
      rfl

theorem normAuthorsGo_ok (l : List PyVal) (h : ∀ a ∈ l, authorEntryOk a = true) :
    normAuthorsGo l = Except.ok (l.filterMap claimAuthorEntry) := by
  induction l with
  | nil => rfl
  | cons a rest ih =>
    have hr := ih (fun x hx => h x (by simp [hx]))
    cases a with
    | str s =>
        have h1 : normAuthorsGo (PyVal.str s :: rest)
            = Except.ok (PyVal.str s :: List.filterMap claimAuthorEntry rest) := by
          show (do
              let r ← normAuthorsGo rest
              Except.ok (PyVal.str s :: r)) = _
          rw [hr]
          rfl
        rw [h1, List.filterMap_cons]
        simp [claimAuthorEntry]
    | dict d =>
        have ha := h (PyVal.dict d) (by simp)
        have h1 : normAuthorsGo (PyVal.dict d :: rest)
            = Except.ok (if pyTruthy (resolvedName d)
                then resolvedName d :: List.filterMap claimAuthorEntry rest
                else List.filterMap claimAuthorEntry rest) := by
          show (do
              let n ← resolveName d
              let r ← normAuthorsGo rest
              Except.ok (if pyTruthy n then n :: r else r)) = _
          rw [resolveName_ok d ha, hr]
          rfl
        rw [h1, List.filterMap_cons]
        by_cases hv : pyTruthy (resolvedName d) = true
        · simp [claimAuthorEntry, hv]
        · have hv' : pyTruthy (resolvedName d) = false := by simpa using hv
          simp [claimAuthorEntry, hv']
    | int n => simp [normAuthorsGo, hr, List.filterMap_cons, claimAuthorEntry]
    | none => simp [normAuthorsGo, hr, List.filterMap_cons, claimAuthorEntry]
    | list l2 => simp [normAuthorsGo, hr, List.filterMap_cons, claimAuthorEntry]

/-- Claim C10 counterexample: on the list input `[{"author": "Smith"}]` the
function does not return a list at all — CPython evaluates
`("Smith").get("display_name")` and raises AttributeError — refuting the
claim that every list input yields the described output with such entries
silently skipped. -/
theorem C10_counterexample :
    normalize_author_list (PyVal.list [PyVal.dict [("author", PyVal.str "Smith")]])
      = Except.error "AttributeError"
    ∧ ∀ out : List PyVal,
        normalize_author_list (PyVal.list [PyVal.dict [("author", PyVal.str "Smith")]])
          ≠ Except.ok out := by
  constructor
  · rfl
  · intro out hout
    have h1 : (Except.error "AttributeError" : Except String (List PyVal)) = Except.ok out := by
      rw [← hout]
      rfl
    exact Except.noConfusion h1

/-- Claim C10 (amended): a non-list argument yields the empty list; a list
argument in which every dict entry's "author" value, when its "name" is
falsy, is falsy or itself a dict (the no-raise guard) yields, in input order,
exactly the string entries and the truthy resolved display names of the dict
entries, all other entries skipped.  Without the guard the loop raises
(see the counterexample). -/
theorem C10_normalize_author_list (v : PyVal) :
    (∀ l, v = PyVal.list l → (∀ a ∈ l, authorEntryOk a = true) →
        normalize_author_list v = Except.ok (l.filterMap claimAuthorEntry))
    ∧ ((∀ l, v ≠ PyVal.list l) → normalize_author_list v = Except.ok []) := by
  constructor
  · intro l hv h
    subst hv
    exact normAuthorsGo_ok l h
  · intro hnl
    cases v with
    | list l => exact absurd rfl (hnl l)
    | str s => rfl
    | int n => rfl
    | none => rfl
    | dict d => rfl

/-- Witness for Claim C10's amended theorem on a list exercising every entry
kind: plain string, named dict, nested-author dict, nameless dict, non-string
scalar. -/
theorem C10_witness :
    normalize_author_list (PyVal.list
      [PyVal.str "Ann", PyVal.dict [("name", PyVal.str "Bob")],
       PyVal.dict [("author", PyVal.dict [("display_name", PyVal.str "Cyd")])],
       PyVal.dict [], PyVal.int 7])
      = Except.ok [PyVal.str "Ann", PyVal.str "Bob", PyVal.str "Cyd"] := by
  have h := (C10_normalize_author_list (PyVal.list
      [PyVal.str "Ann", PyVal.dict [("name", PyVal.str "Bob")],
       PyVal.dict [("author", PyVal.dict [("display_name", PyVal.str "Cyd")])],
       PyVal.dict [], PyVal.int 7])).1 _ rfl (by decide)
  rw [h]
  rfl

/-- One bibliographic record: the fixed-schema Python dict both search
backends construct (streamlit_app_gemini.py:148, 202).  String-or-None values
are `Option String`; the dynamically typed `year` and `authors` values stay
`PyVal`.  `landing_page` mirrors the third key probed by `has_valid_url`;
neither backend ever writes that key, so theorems may pin it to `none`. -/
structure Record where
  id : PyVal
  title : Option String
  abstract : Option String
  doi : Option String
  url : Option String
  oa_pdf_url : Option String
  landing_page : Option String
  year : PyVal
  venue : Option String
  authors : PyVal

/-- Truthiness of a string-or-None field (`None` and `""` are falsy). -/
def optTruthy : Option String → Bool
  | some s => !s.isEmpty
  | Option.none => false

/-- `a or alt` for a string-or-None value with a string default. -/
def pyOrStr (o : Option String) (alt : String) : String :=
  match o with
  | some s => if s.isEmpty then alt else s
  | Option.none => alt

/-- `str.lower()` on a string (ASCII model). -/
def pyLowerS (s : String) : String := ⟨pyLowerL s.toList⟩

/-- `str.strip()` on a string. -/
def pyStripS (s : String) : String := ⟨pyStripL s.toList⟩

/-- `str.replace(old, "")`: delete all non-overlapping occurrences,
left-to-right. -/
def pyRemoveAll (s old : String) : String := ⟨removeAllSub old.toList s.toList⟩

/-- `doi_url` (streamlit_app_gemini.py:73): `None` for a falsy DOI, else the
canonical resolver URL over the lowercased, scheme-stripped, stripped DOI. -/
def doi_url (doi : Option String) : Option String :=
  match doi with
  | Option.none => Option.none
  | some s =>
    if s.isEmpty then Option.none
    else some ("https://doi.org/" ++
      pyStripS (pyRemoveAll (pyRemoveAll (pyLowerS s) "https://doi.org/") "http://doi.org/"))

/-- `sep.join(values)`: concatenation with separator; any non-string element
raises TypeError. -/
def pyJoinStrs (sep : String) : List PyVal → Except String String
  | [] => Except.ok ""
  | [PyVal.str s] => Except.ok s
  | PyVal.str s :: rest => do
      let r ← pyJoinStrs sep rest
      Except.ok (s ++ sep ++ r)
  | _ => Except.error "TypeError"

/-- One iteration of the `make_bibliography` loop (streamlit_app_gemini.py:357):
normalized authors joined by "; " (or "N/A" when empty), parenthesized year or
the "n.d." sentinel for a falsy year, title or "Untitled", venue or "", and
the DOI-based link when the DOI is truthy, else url, else oa_pdf_url, else "".
The title is used as stored — no trailing-period stripping. -/
def renderEntry (r : Record) : Except String String := do
  let auths ← normalize_author_list r.authors
  let auth_str ← if auths.isEmpty then Except.ok "N/A" else pyJoinStrs "; " auths
  let year := if pyTruthy r.year then r.year else PyVal.str "n.d."
  let title := pyOrStr r.title "Untitled"
  let ven := pyOrStr r.venue ""
  let link := if optTruthy r.doi then (doi_url r.doi).getD ""
              else pyOrStr r.url (pyOrStr r.oa_pdf_url "")
  Except.ok (auth_str ++ " (" ++ pyStr year ++ "). " ++ title ++ ". " ++ ven ++ ". " ++ link)

/-- `make_bibliography` (streamlit_app_gemini.py:357): the rendered reference
strings of the survivor list, in order. -/
def make_bibliography : List Record → Except String (List String)
  | [] => Except.ok []
  | r :: rs => do
      let e ← renderEntry r
      let rest ← make_bibliography rs
      Except.ok (e :: rest)

/-- Rendering as Claim C8 words it: identical to `renderEntry` except that
the title's trailing periods are stripped. -/
def claimRenderEntry (r : Record) : Except String String := do
  let auths ← normalize_author_list r.authors
  let auth_str ← if auths.isEmpty then Except.ok "N/A" else pyJoinStrs "; " auths
  let year := if pyTruthy r.year then r.year else PyVal.str "n.d."
  let title : String :=
    ⟨((pyOrStr r.title "Untitled").toList.reverse.dropWhile (fun c => c = '.')).reverse⟩
  let ven := pyOrStr r.venue ""
  let link := if optTruthy r.doi then (doi_url r.doi).getD ""
              else pyOrStr r.url (pyOrStr r.oa_pdf_url "")
  Except.ok (auth_str ++ " (" ++ pyStr year ++ "). " ++ title ++ ". " ++ ven ++ ". " ++ link)

/-- Record whose title ends in a period, exposing the doubled period. -/
def periodRec : Record :=
  ⟨PyVal.none, some "A study.", Option.none, Option.none, Option.none, Option.none,
    Option.none, PyVal.none, Option.none, PyVal.list []⟩

/-- Claim C8 counterexample: the code does not strip a trailing period from
the title — a survivor titled "A study." renders with a doubled period, so
the k-th entry is not the claimed title-stripped rendering. -/
theorem C8_counterexample :
    make_bibliography [periodRec] = Except.ok ["N/A (n.d.). A study.. . "]
    ∧ claimRenderEntry periodRec = Except.ok "N/A (n.d.). A study. . "
    ∧ ("N/A (n.d.). A study.. . " : String) ≠ "N/A (n.d.). A study. . " :=
  ⟨rfl, rfl, by decide⟩

/-- Claim C8 (amended): when assembly succeeds the bibliography has one entry
per survivor and its k-th rendered reference is exactly the rendering of the
k-th survivor (authors joined by "; ", parenthesized year or "n.d.", the
title as stored — trailing period not stripped — venue, DOI link preferred
over the raw URL); the assembler is a pure function of the survivor list, so
identical lists give identical bibliographies. -/
theorem C8_bibliography_stability (l : List Record) (out : List String)
    (h : make_bibliography l = Except.ok out) :
    out.length = l.length
    ∧ ∀ k (hk : k < l.length) (hk2 : k < out.length),
        renderEntry (l.get ⟨k, hk⟩) = Except.ok (out.get ⟨k, hk2⟩) := by
  induction l generalizing out with
  | nil =>
    have hout : out = [] := by
      have h0 : (Except.ok [] : Except String (List String)) = Except.ok out := h
      exact (Except.ok.injEq _ _ |>.mp h0.symm)
    subst hout
    exact ⟨rfl, fun k hk => absurd hk (by simp)⟩
  | cons r rs ih =>
    cases he : renderEntry r with
    | error e =>
      exfalso
      have h0 : make_bibliography (r :: rs) = Except.error e := by
        show (do
            let e2 ← renderEntry r
            let rest ← make_bibliography rs
            Except.ok (e2 :: rest)) = _
        rw [he]
        rfl
      rw [h0] at h
      exact Except.noConfusion h
    | ok s =>
      cases hm : make_bibliography rs with
      | error e =>
        exfalso
        have h0 : make_bibliography (r :: rs) = Except.error e := by
          show (do
              let e2 ← renderEntry r
              let rest ← make_bibliography rs
              Except.ok (e2 :: rest)) = _
          rw [he, hm]
          rfl
        rw [h0] at h
        exact Except.noConfusion h
      | ok rest =>
        have h0 : make_bibliography (r :: rs) = Except.ok (s :: rest) := by
          show (do
              let e2 ← renderEntry r
              let rest2 ← make_bibliography rs
              Except.ok (e2 :: rest2)) = _
          rw [he, hm]
          rfl
        have hout : out = s :: rest := by
          rw [h0] at h
          exact (Except.ok.injEq _ _ |>.mp h).symm
        subst hout
        obtain ⟨hlen, hidx⟩ := ih rest hm
        refine ⟨by simp [hlen], fun k hk hk2 => ?_⟩
        cases k with
        | zero => simpa using he
        | succ k =>
          have hk' : k < rs.length := by simpa using hk
          have hk2' : k < rest.length := by simpa using hk2
          simpa using hidx k hk' hk2'

/-- Record with every field populated, for the witness. -/
def wrec : Record :=
  ⟨PyVal.str "id1", some "Green growth", some "green ab", some "10.1/x", some "http://u",
    Option.none, Option.none, PyVal.int 2020, some "Journal",
    PyVal.list [PyVal.str "Ann", PyVal.str "Bob"]⟩

/-- Witness for Claim C8's amended theorem on a concrete survivor list. -/
theorem C8_witness :
    renderEntry wrec
      = Except.ok "Ann; Bob (2020). Green growth. Journal. https://doi.org/10.1/x" := by
  have h := (C8_bibliography_stability [wrec]
      ["Ann; Bob (2020). Green growth. Journal. https://doi.org/10.1/x"] rfl).2 0
      (by decide) (by decide)
  simpa using h

/-- Separator class of the topic tokenizer: the regex class `[;,\s]`. -/
def isSep (c : Char) : Bool := c = ';' || c = ',' || isPyWs c

/-- Fuel-driven splitter behind `reSplit`. -/
def reSplitGo : Nat → List Char → List (List Char)
  | 0, _ => [[]]
  | _ + 1, [] => [[]]
  | fuel + 1, c :: l =>
    if isSep c then [] :: reSplitGo fuel (l.dropWhile isPyWs)
    else (reSplitGo fuel l).modifyHead (fun t => c :: t)

/-- `re.split(r"[;,\s]\s*", topic)`: each separator match consumes one
separator character plus the following whitespace run; pieces between
separator matches are returned, empty pieces included. -/
def reSplit (l : List Char) : List (List Char) := reSplitGo l.length l

/-- `sub in s` for strings: substring containment. -/
def isSubstr (pat : List Char) : List Char → Bool
  | [] => pat.isEmpty
  | c :: cs => startsWith pat (c :: cs) || isSubstr pat cs

/-- Topic tokens (streamlit_app_gemini.py:435): the split pieces whose
stripped length exceeds two, stripped and lowercased. -/
def topic_tokens (topic : String) : List (List Char) :=
  ((reSplit topic.toList).filter (fun t => 2 < (pyStripL t).length)).map
    (fun t => pyLowerL (pyStripL t))

/-- Fuel-driven halving count behind `excessBits`. -/
def excessBitsGo : Nat → Nat → Nat
  | 0, _ => 0
  | fuel + 1, a => if a < 2 ^ 53 then 0 else excessBitsGo fuel (a / 2) + 1

/-- Number of low bits beyond 53 significant bits. -/
def excessBits (a : Nat) : Nat := excessBitsGo a a

/-- Round a natural to 53 significant bits, ties to even: IEEE-754 binary64
rounding of an integer-scaled value. -/
def roundBits (a : Nat) : Nat :=
  let e := excessBits a
  if e = 0 then a
  else
    let q := a / 2 ^ e
    let r := a % 2 ^ e
    let half := 2 ^ (e - 1)
    let q2 := if half < r ∨ (r = half ∧ q % 2 = 1) then q + 1 else q
    q2 * 2 ^ e

/-- Numerator of the binary64 double nearest 0.3, at scale `2 ^ 54`. -/
def d3num : Nat := 5404319552844595

/-- `int(0.3 * N)` under CPython binary64 arithmetic: convert `N` to a double
(rounding to 53 significant bits), multiply by the double nearest 0.3 with one
more rounding, truncate toward zero.  Matches CPython for every length below
float-overflow range, far beyond any reachable list. -/
def int03 (N : Nat) : Nat := roundBits (d3num * roundBits N) / 2 ^ 54

/-- `has_valid_url` (streamlit_app_gemini.py:53): truthiness of the
"oa_pdf_url", "url", "landing_page" values, in that order. -/
def has_valid_url (r : Record) : Bool :=
  optTruthy r.oa_pdf_url || optTruthy r.url || optTruthy r.landing_page

/-- Year coercion inside the dedup loop (streamlit_app_gemini.py:426): a
digit-string year becomes an int (ASCII-digit model of `str.isdigit`),
everything else is kept unchanged. -/
def coerceYear (w : Record) : Record :=
  match w.year with
  | PyVal.str s =>
      if !s.isEmpty && s.toList.all Char.isDigit
      then ⟨w.id, w.title, w.abstract, w.doi, w.url, w.oa_pdf_url, w.landing_page,
        PyVal.int (Int.ofNat (digitsToNat s.toList)), w.venue, w.authors⟩
      else w
  | _ => w

/-- Stage 2 of the funnel (streamlit_app_gemini.py:409-431): skip records
whose lowercased stripped title is empty or already seen; mark the title seen
before validating; keep the record (year coerced) when its DOI is truthy and
the oracle resolves it, or `has_valid_url` holds. -/
def dedupValidate (vd : String → Bool) : List Record → List (List Char) → List Record
  | [], _ => []
  | w :: ws, seen =>
    let title := pyLowerL (pyStripL (pyOrStr w.title "").toList)
    if title.isEmpty || seen.contains title then dedupValidate vd ws seen
    else
      let ok := (match w.doi with
        | some s => !s.isEmpty && vd s
        | Option.none => false) || has_valid_url w
      if ok then coerceYear w :: dedupValidate vd ws (title :: seen)
      else dedupValidate vd ws (title :: seen)

/-- Title match of stage 3: some token occurs in the lowercased title. -/
def titleMatch (toks : List (List Char)) (w : Record) : Bool :=
  toks.any (fun tok => isSubstr tok (pyLowerL (pyOrStr w.title "").toList))

/-- Stage 3 (streamlit_app_gemini.py:433-442): keep token-matching titles,
unless fewer than `max(10, int(0.3 * len(clean)))` survive, in which case the
stage is a no-op. -/
def screen_title (topic : String) (clean : List Record) : List Record :=
  let kept := clean.filter (titleMatch (topic_tokens topic))
  if kept.length < max 10 (int03 clean.length) then clean else kept

/-- Abstract keep of stage 4: records without an abstract pass
unconditionally, the rest need a token in the lowercased abstract. -/
def abstractKeep (toks : List (List Char)) (w : Record) : Bool :=
  let ab := pyLowerL (pyOrStr w.abstract "").toList
  ab.isEmpty || toks.any (fun tok => isSubstr tok ab)

/-- Stage 4 (streamlit_app_gemini.py:444-453). -/
def screen_abstract (topic : String) (l : List Record) : List Record :=
  l.filter (abstractKeep (topic_tokens topic))

/-- Python slice `l[:m]` for a possibly negative `m`. -/
def pySliceTo (m : Int) (l : List Record) : List Record :=
  if 0 ≤ m then l.take m.toNat else l.take (l.length - m.natAbs)

/-- The five PRISMA counters recorded by `main`. -/
structure Prisma where
  initial : Nat
  deduped : Nat
  screened_title : Nat
  screened_abstract : Nat
  included_fulltext : Nat

/-- Stages 2-5 of `main` (streamlit_app_gemini.py:406-457), parameterized by
the DOI-resolution oracle `vd` (`verify_doi`: HEAD status below 400 following
redirects; any network failure yields `false`). -/
def runFunnel (vd : String → Bool) (topic : String) (max_sources : Int)
    (works : List Record) : Prisma × List Record :=
  let clean := dedupValidate vd works []
  let tk := screen_title topic clean
  let ak := screen_abstract topic tk
  let sources := pySliceTo max_sources ak
  (⟨works.length, clean.length, tk.length, ak.length, sources.length⟩, sources)

theorem dedupValidate_length (vd : String → Bool) :
    ∀ (ws : List Record) (seen : List (List Char)),
      (dedupValidate vd ws seen).length ≤ ws.length := by
  intro ws
  induction ws with
  | nil => intro seen; simp [dedupValidate]
  | cons w ws ih =>
    intro seen
    rw [dedupValidate]
    by_cases h1 : ((pyLowerL (pyStripL (pyOrStr w.title "").toList)).isEmpty
        || seen.contains (pyLowerL (pyStripL (pyOrStr w.title "").toList))) = true
    · rw [if_pos h1]
      exact Nat.le_succ_of_le (ih seen)
    · rw [if_neg h1]
      by_cases h2 : ((match w.doi with
          | some s => !s.isEmpty && vd s
          | Option.none => false) || has_valid_url w) = true
      · rw [if_pos h2]
        simpa using Nat.succ_le_succ (ih _)
      · rw [if_neg h2]
        exact Nat.le_succ_of_le (ih _)

theorem screen_title_length (topic : String) (clean : List Record) :
    (screen_title topic clean).length ≤ clean.length := by
  rw [screen_title]
  by_cases h : (clean.filter (titleMatch (topic_tokens topic))).length
      < max 10 (int03 clean.length)
  · rw [if_pos h]
  · rw [if_neg h]
    exact List.length_filter_le _ _

theorem screen_abstract_length (topic : String) (l : List Record) :
    (screen_abstract topic l).length ≤ l.length :=
  List.length_filter_le _ _

theorem pySliceTo_length (m : Int) (l : List Record) :
    (pySliceTo m l).length ≤ l.length := by
  rw [pySliceTo]
  by_cases h : 0 ≤ m
  · rw [if_pos h]
    simpa using Nat.min_le_right _ _
  · rw [if_neg h]
    simpa using Nat.min_le_right _ _

/-- Claim C2: funnel monotonicity — for every oracle, topic, cap and
retrieved record list, the recorded counters satisfy
`initial ≥ deduped ≥ screened_title ≥ screened_abstract ≥ included_fulltext ≥ 0`. -/
theorem C2_funnel_monotonicity (vd : String → Bool) (topic : String)
    (max_sources : Int) (works : List Record) :
    (runFunnel vd topic max_sources works).1.deduped
        ≤ (runFunnel vd topic max_sources works).1.initial
    ∧ (runFunnel vd topic max_sources works).1.screened_title
        ≤ (runFunnel vd topic max_sources works).1.deduped
    ∧ (runFunnel vd topic max_sources works).1.screened_abstract
        ≤ (runFunnel vd topic max_sources works).1.screened_title
    ∧ (runFunnel vd topic max_sources works).1.included_fulltext
        ≤ (runFunnel vd topic max_sources works).1.screened_abstract
    ∧ 0 ≤ (runFunnel vd topic max_sources works).1.included_fulltext := by
  refine ⟨?_, ?_, ?_, ?_, Nat.zero_le _⟩
  · exact dedupValidate_length vd works []
  · exact screen_title_length topic _
  · exact screen_abstract_length topic _
  · exact pySliceTo_length max_sources _

theorem coerceYear_fields (w : Record) :
    (coerceYear w).doi = w.doi ∧ (coerceYear w).url = w.url
      ∧ (coerceYear w).oa_pdf_url = w.oa_pdf_url := by
  cases hy : w.year <;> simp [coerceYear, hy] <;> split <;> simp

theorem dedupValidate_valid (vd : String → Bool) :
    ∀ (ws : List Record) (seen : List (List Char)),
      (∀ w ∈ ws, w.landing_page = Option.none) →
      ∀ r ∈ dedupValidate vd ws seen,
        (∃ d, r.doi = some d ∧ d ≠ "" ∧ vd d = true)
        ∨ optTruthy r.url = true ∨ optTruthy r.oa_pdf_url = true := by
  intro ws
  induction ws with
  | nil => intro seen _ r hr; simp [dedupValidate] at hr
  | cons w ws ih =>
    intro seen hlp r hr
    have hlp' : ∀ w2 ∈ ws, w2.landing_page = Option.none :=
      fun w2 hw2 => hlp w2 (by simp [hw2])
    rw [dedupValidate] at hr
    by_cases h1 : ((pyLowerL (pyStripL (pyOrStr w.title "").toList)).isEmpty
        || seen.contains (pyLowerL (pyStripL (pyOrStr w.title "").toList))) = true
    · rw [if_pos h1] at hr
      exact ih seen hlp' r hr
    · rw [if_neg h1] at hr
      by_cases h2 : ((match w.doi with
          | some s => !s.isEmpty && vd s
          | Option.none => false) || has_valid_url w) = true
      · rw [if_pos h2] at hr
        rcases List.mem_cons.mp hr with he | hm
        · subst he
          obtain ⟨hd, hu, ho⟩ := coerceYear_fields w
          rw [Bool.or_eq_true] at h2
          rcases h2 with hdoi | hurl
          · left
            cases hds : w.doi with
            | none => rw [hds] at hdoi; exact absurd hdoi (by simp)
            | some s =>
              rw [hds] at hdoi
              simp only [Bool.and_eq_true] at hdoi
              refine ⟨s, by rw [hd, hds], ?_, hdoi.2⟩
              intro he
              rw [he] at hdoi
              exact absurd hdoi.1 (by decide)
          · rw [has_valid_url, hlp w (by simp)] at hurl
            simp only [optTruthy, Bool.or_eq_true, Bool.or_false] at hurl
            rcases hurl with hoa | hu2
            · right; right; rw [ho]; exact hoa
            · right; left; rw [hu]; exact hu2
        · exact ih _ hlp' r hm
      · rw [if_neg h2] at hr
        exact ih _ hlp' r hr

/-- Claim C3: validity gating — over every DOI oracle, topic, cap and input
list of backend records (which never carry a "landing_page" key), every
record reaching the final source list passed to `make_bibliography` has a
truthy DOI the oracle resolves, or a truthy url or oa_pdf_url. -/
theorem C3_validity_gating (vd : String → Bool) (topic : String) (max_sources : Int)
    (works : List Record) (hlp : ∀ w ∈ works, w.landing_page = Option.none) :
    ∀ r ∈ (runFunnel vd topic max_sources works).2,
      (∃ d, r.doi = some d ∧ d ≠ "" ∧ vd d = true)
      ∨ optTruthy r.url = true ∨ optTruthy r.oa_pdf_url = true := by
  intro r hr
  have hsub1 : r ∈ screen_abstract topic (screen_title topic (dedupValidate vd works [])) := by
    have : (runFunnel vd topic max_sources works).2
        = pySliceTo max_sources (screen_abstract topic (screen_title topic (dedupValidate vd works []))) := rfl
    rw [this, pySliceTo] at hr
    by_cases h : 0 ≤ max_sources
    · rw [if_pos h] at hr; exact List.take_subset _ _ hr
    · rw [if_neg h] at hr; exact List.take_subset _ _ hr
  have hsub2 : r ∈ screen_title topic (dedupValidate vd works []) :=
    List.mem_of_mem_filter hsub1
  have hsub3 : r ∈ dedupValidate vd works [] := by
    rw [screen_title] at hsub2
    by_cases h : ((dedupValidate vd works []).filter
        (titleMatch (topic_tokens topic))).length < max 10 (int03 (dedupValidate vd works []).length)
    · rwa [if_pos h] at hsub2
    · rw [if_neg h] at hsub2; exact List.mem_of_mem_filter hsub2
  exact dedupValidate_valid vd works [] hlp r hsub3

/-- Witness for Claim C3 on a concrete single-record run with an
always-resolving oracle. -/
theorem C3_witness :
    (∃ d, wrec.doi = some d ∧ d ≠ "" ∧ (fun _ : String => true) d = true)
    ∨ optTruthy wrec.url = true ∨ optTruthy wrec.oa_pdf_url = true := by
  have hmem : wrec ∈ (runFunnel (fun _ => true) "green" 60 [wrec]).2 := by
    have hs : (runFunnel (fun _ => true) "green" 60 [wrec]).2 = [wrec] := rfl
    rw [hs]
    exact List.mem_singleton.mpr rfl
  exact C3_validity_gating (fun _ => true) "green" 60 [wrec]
    (by intro w hw; rw [List.mem_singleton] at hw; subst hw; rfl) wrec hmem

theorem dropWhile_length_le (p : Char → Bool) :
    ∀ l : List Char, (l.dropWhile p).length ≤ l.length := by
  intro l
  induction l with
  | nil => simp
  | cons c l ih =>
    rw [List.dropWhile_cons]
    by_cases h : p c = true
    · rw [if_pos h]
      exact Nat.le_succ_of_le ih
    · rw [if_neg h]

theorem reSplitGo_eq : ∀ (fuel : Nat) (l : List Char), l.length ≤ fuel →
    reSplitGo fuel l = reSplitGo l.length l := by
  intro fuel
  induction fuel using Nat.strong_induction_on with
  | _ fuel ih =>
    intro l hl
    cases fuel with
    | zero =>
      cases l with
      | nil => rfl
      | cons c l => simp at hl
    | succ fuel =>
      cases l with
      | nil => rfl
      | cons c l =>
        have hl' : l.length ≤ fuel := by simpa using hl
        show (if isSep c then [] :: reSplitGo fuel (l.dropWhile isPyWs)
            else (reSplitGo fuel l).modifyHead (fun t => c :: t))
          = (if isSep c then [] :: reSplitGo l.length (l.dropWhile isPyWs)
            else (reSplitGo l.length l).modifyHead (fun t => c :: t))
        by_cases hs : isSep c = true
        · rw [if_pos hs, if_pos hs,
            ih fuel (Nat.lt_succ_self _) _
              (le_trans (dropWhile_length_le _ _) hl'),
            ih l.length (Nat.lt_succ_of_le hl') _ (dropWhile_length_le _ _)]
        · rw [if_neg hs, if_neg hs, ih fuel (Nat.lt_succ_self _) l hl']

theorem reSplit_cons (c : Char) (l : List Char) :
    reSplit (c :: l) = if isSep c then [] :: reSplit (l.dropWhile isPyWs)
      else (reSplit l).modifyHead (fun t => c :: t) := by
  show (if isSep c then [] :: reSplitGo l.length (l.dropWhile isPyWs)
      else (reSplitGo l.length l).modifyHead (fun t => c :: t)) = _
  rw [reSplitGo_eq l.length _ (dropWhile_length_le _ _)]
  rfl

/-- Claim-side splitter: the topic split at every whitespace, comma or
semicolon character (empty pieces kept, dropped by the length filter). -/
def splitSep : List Char → List (List Char)
  | [] => [[]]
  | c :: l => if isSep c then [] :: splitSep l else (splitSep l).modifyHead (fun t => c :: t)

theorem isSep_of_ws (c : Char) (h : isPyWs c = true) : isSep c = true := by
  simp [isSep, h]

theorem ws_false_of_sep_false (c : Char) (h : isSep c = false) : isPyWs c = false := by
  by_contra hw
  rw [Bool.not_eq_false] at hw
  rw [isSep_of_ws c hw] at h
  exact Bool.noConfusion h

theorem dropWhile_head_false {p : Char → Bool} :
    ∀ (l : List Char) {x : Char} {t : List Char}, l.dropWhile p = x :: t → p x = false := by
  intro l
  induction l with
  | nil => intro x t h; simp at h
  | cons c l ih =>
    intro x t h
    rw [List.dropWhile_cons] at h
    by_cases hc : p c = true
    · rw [if_pos hc] at h
      exact ih h
    · rw [if_neg hc] at h
      injection h with h1 _
      rw [← h1]
      simpa using hc

theorem reSplit_run : ∀ l : List Char,
    reSplit l = (l.takeWhile (fun c => !isSep c))
      :: (reSplit (l.dropWhile (fun c => !isSep c))).tail := by
  intro l
  induction l with
  | nil => rfl
  | cons c l ih =>
    by_cases hs : isSep c = true
    · have h1 : (c :: l).takeWhile (fun x => !isSep x) = [] := by
        rw [List.takeWhile_cons]
        simp [hs]
      have h2 : (c :: l).dropWhile (fun x => !isSep x) = c :: l := by
        rw [List.dropWhile_cons]
        simp [hs]
      rw [h1, h2, reSplit_cons, if_pos hs]
      rfl
    · have hsf : isSep c = false := by simpa using hs
      have h1 : (c :: l).takeWhile (fun x => !isSep x)
          = c :: l.takeWhile (fun x => !isSep x) := by
        rw [List.takeWhile_cons]
        simp [hsf]
      have h2 : (c :: l).dropWhile (fun x => !isSep x)
          = l.dropWhile (fun x => !isSep x) := by
        rw [List.dropWhile_cons]
        simp [hsf]
      rw [h1, h2, reSplit_cons, if_neg hs, ih]
      rfl

theorem splitSep_run : ∀ l : List Char,
    splitSep l = (l.takeWhile (fun c => !isSep c))
      :: (splitSep (l.dropWhile (fun c => !isSep c))).tail := by
  intro l
  induction l with
  | nil => rfl
  | cons c l ih =>
    by_cases hs : isSep c = true
    · have h1 : (c :: l).takeWhile (fun x => !isSep x) = [] := by
        rw [List.takeWhile_cons]
        simp [hs]
      have h2 : (c :: l).dropWhile (fun x => !isSep x) = c :: l := by
        rw [List.dropWhile_cons]
        simp [hs]
      have h3 : splitSep (c :: l) = [] :: splitSep l := by
        show (if isSep c then [] :: splitSep l else (splitSep l).modifyHead (fun t => c :: t)) = _
        rw [if_pos hs]
      rw [h1, h2, h3]
      rfl
    · have hsf : isSep c = false := by simpa using hs
      have h1 : (c :: l).takeWhile (fun x => !isSep x)
          = c :: l.takeWhile (fun x => !isSep x) := by
        rw [List.takeWhile_cons]
        simp [hsf]
      have h2 : (c :: l).dropWhile (fun x => !isSep x)
          = l.dropWhile (fun x => !isSep x) := by
        rw [List.dropWhile_cons]
        simp [hsf]
      have h3 : splitSep (c :: l) = (splitSep l).modifyHead (fun t => c :: t) := by
        show (if isSep c then [] :: splitSep l else (splitSep l).modifyHead (fun t => c :: t)) = _
        rw [if_neg hs]
      rw [h1, h2, h3, ih]
      rfl

/-- Code-side token extraction applied to a piece list: strip, length filter,
strip-and-lower. -/
def tokensOfC (pieces : List (List Char)) : List (List Char) :=
  (pieces.filter (fun t => 2 < (pyStripL t).length)).map (fun t => pyLowerL (pyStripL t))

/-- Claim-side token extraction: length filter and lower, no strip. -/
def tokensOfS (pieces : List (List Char)) : List (List Char) :=
  (pieces.filter (fun t => 2 < t.length)).map pyLowerL

theorem tokensOfC_cons (t : List Char) (ts : List (List Char)) :
    tokensOfC (t :: ts) = if 2 < (pyStripL t).length
      then pyLowerL (pyStripL t) :: tokensOfC ts else tokensOfC ts := by
  by_cases h : 2 < (pyStripL t).length
  · simp [tokensOfC, List.filter_cons, h]
  · simp [tokensOfC, List.filter_cons, h]

theorem tokensOfS_cons (t : List Char) (ts : List (List Char)) :
    tokensOfS (t :: ts) = if 2 < t.length
      then pyLowerL t :: tokensOfS ts else tokensOfS ts := by
  by_cases h : 2 < t.length
  · simp [tokensOfS, List.filter_cons, h]
  · simp [tokensOfS, List.filter_cons, h]

theorem tokensOfS_dropWs : ∀ l : List Char,
    tokensOfS (splitSep (l.dropWhile isPyWs)) = tokensOfS (splitSep l) := by
  intro l
  induction l with
  | nil => rfl
  | cons c l ih =>
    by_cases hw : isPyWs c = true
    · have hs := isSep_of_ws c hw
      have h1 : (c :: l).dropWhile isPyWs = l.dropWhile isPyWs := by
        rw [List.dropWhile_cons, if_pos hw]
      have h2 : splitSep (c :: l) = [] :: splitSep l := by
        show (if isSep c then [] :: splitSep l else (splitSep l).modifyHead (fun t => c :: t)) = _
        rw [if_pos hs]
      rw [h1, ih, h2, tokensOfS_cons]
      simp
    · have h1 : (c :: l).dropWhile isPyWs = c :: l := by
        rw [List.dropWhile_cons, if_neg hw]
      rw [h1]

theorem tokens_eq_n : ∀ (n : Nat) (l : List Char), l.length ≤ n →
    tokensOfC (reSplit l) = tokensOfS (splitSep l) := by
  intro n
  induction n with
  | zero =>
    intro l hl
    have h0 : l = [] := List.length_eq_zero.mp (Nat.le_zero.mp hl)
    subst h0
    rfl
  | succ n ih =>
    intro l hl
    cases l with
    | nil => rfl
    | cons c l =>
      have hl' : l.length ≤ n := by simpa using hl
      by_cases hs : isSep c = true
      · have h2 : splitSep (c :: l) = [] :: splitSep l := by
          show (if isSep c then [] :: splitSep l else (splitSep l).modifyHead (fun t => c :: t)) = _
          rw [if_pos hs]
        rw [reSplit_cons, if_pos hs, h2, tokensOfC_cons, tokensOfS_cons]
        rw [if_neg (by decide : ¬ 2 < (pyStripL ([] : List Char)).length),
          if_neg (by decide : ¬ 2 < ([] : List Char).length)]
        rw [ih _ (le_trans (dropWhile_length_le _ _) hl')]
        exact tokensOfS_dropWs l
      · have hsf : isSep c = false := by simpa using hs
        have hdrop : (c :: l).dropWhile (fun x => !isSep x)
            = l.dropWhile (fun x => !isSep x) := by
          rw [List.dropWhile_cons]
          simp [hsf]
        have hlen : ((c :: l).dropWhile (fun x => !isSep x)).length ≤ n := by
          rw [hdrop]
          exact le_trans (dropWhile_length_le _ _) hl'
        rw [reSplit_run (c :: l), splitSep_run (c :: l), tokensOfC_cons, tokensOfS_cons]
        have hrun : pyStripL ((c :: l).takeWhile (fun x => !isSep x))
            = (c :: l).takeWhile (fun x => !isSep x) := by
          apply pyStripL_id
          intro x hx
          have hpx := List.mem_takeWhile_imp hx
          have hxs : isSep x = false := by simpa using hpx
          exact ws_false_of_sep_false x hxs
        rw [hrun]
        have htailC : tokensOfC ((reSplit ((c :: l).dropWhile (fun x => !isSep x))).tail)
            = tokensOfC (reSplit ((c :: l).dropWhile (fun x => !isSep x))) := by
          cases hrest : (c :: l).dropWhile (fun x => !isSep x) with
          | nil => rfl
          | cons x t =>
            have hx : (fun y => !isSep y) x = false := dropWhile_head_false _ hrest
            have hxs : isSep x = true := by simpa using hx
            have h3 : reSplit (x :: t) = [] :: reSplit (t.dropWhile isPyWs) := by
              rw [reSplit_cons, if_pos hxs]
            rw [h3, tokensOfC_cons,
              if_neg (by decide : ¬ 2 < (pyStripL ([] : List Char)).length)]
            rfl
        have htailS : tokensOfS ((splitSep ((c :: l).dropWhile (fun x => !isSep x))).tail)
            = tokensOfS (splitSep ((c :: l).dropWhile (fun x => !isSep x))) := by
          cases hrest : (c :: l).dropWhile (fun x => !isSep x) with
          | nil => rfl
          | cons x t =>
            have hx : (fun y => !isSep y) x = false := dropWhile_head_false _ hrest
            have hxs : isSep x = true := by simpa using hx
            have h3 : splitSep (x :: t) = [] :: splitSep t := by
              show (if isSep x then [] :: splitSep t else (splitSep t).modifyHead (fun u => x :: u)) = _
              rw [if_pos hxs]
            rw [h3, tokensOfS_cons,
              if_neg (by decide : ¬ 2 < ([] : List Char).length)]
            rfl
        have hT : tokensOfC ((reSplit ((c :: l).dropWhile (fun x => !isSep x))).tail)
            = tokensOfS ((splitSep ((c :: l).dropWhile (fun x => !isSep x))).tail) := by
          rw [htailC, htailS]
          exact ih _ hlen
        rw [hT]

theorem tokens_eq_top (topic : String) : topic_tokens topic
    = ((splitSep topic.toList).filter (fun t => 2 < t.length)).map pyLowerL := by
  have h := tokens_eq_n topic.toList.length topic.toList (le_refl _)
  exact h

/-- Claim-side tokens: split the topic at every whitespace, comma or
semicolon, keep the pieces longer than two characters, lowercased. -/
def specTokens (topic : String) : List (List Char) :=
  ((splitSep topic.toList).filter (fun t => 2 < t.length)).map pyLowerL

/-- Claim-side title match: some claim-side token occurs in the lowercased
title. -/
def specTitleMatch (topic : String) : Record → Bool := titleMatch (specTokens topic)

/-- Title-only record, for the title-screen stage. -/
def trec (t : String) : Record :=
  ⟨PyVal.none, some t, Option.none, Option.none, Option.none, Option.none, Option.none,
    PyVal.none, Option.none, PyVal.list []⟩

/-- 34 deduped records of which exactly 10 match the topic "green". -/
def exClean : List Record :=
  (List.range 10).map (fun i => trec ("green paper " ++ toString i))
  ++ (List.range 24).map (fun i => trec ("blue paper " ++ toString i))

/-- Claim C5 counterexample: with 34 deduped records and exactly 10 matches,
the claim's real-valued threshold max(10, 0.3 × 34) = 10.2 makes 10 survivors
trigger the escape hatch (10 < 10.2, so all 34 records should pass), but the
code compares against max(10, int(0.3*34)) = 10, so the stage filters down to
the 10 matching records instead of being a no-op. -/
theorem C5_counterexample :
    exClean.length = 34
    ∧ (exClean.filter (titleMatch (topic_tokens "green"))).length = 10
    ∧ ((10 : ℚ) < max 10 ((3 : ℚ) / 10 * 34))
    ∧ (screen_title "green" exClean).length = 10
    ∧ screen_title "green" exClean ≠ exClean := by
  refine ⟨by decide, by decide, ?_, by decide, ?_⟩
  · have h : (10 : ℚ) < (3 : ℚ) / 10 * 34 := by norm_num
    exact lt_max_of_lt_right h
  · intro heq
    have h2 : (screen_title "green" exClean).length = 10 := by decide
    have h3 : exClean.length = 34 := by decide
    rw [heq, h3] at h2
    exact absurd h2 (by decide)

/-- Claim C5 (amended): with the threshold corrected from the real-valued
max(10, 0.3 × N) to the code's max(10, int(0.3 * N)) computed in binary64
floating point: when fewer records match a topic token than that threshold
the title screen passes all deduped records through unchanged, and otherwise
exactly the token-matching records pass, in order.  Stated over the
claim-side tokenizer (split on whitespace/commas/semicolons, keep pieces
longer than two characters); the proof shows it coincides with the code's
`re.split(r"[;,\s]\s*", ...)`-based tokens. -/
theorem C5_title_screen (topic : String) (clean : List Record) :
    ((clean.filter (specTitleMatch topic)).length < max 10 (int03 clean.length) →
      screen_title topic clean = clean)
    ∧ (max 10 (int03 clean.length) ≤ (clean.filter (specTitleMatch topic)).length →
      screen_title topic clean = clean.filter (specTitleMatch topic)) := by
  have hfil : clean.filter (titleMatch (topic_tokens topic))
      = clean.filter (specTitleMatch topic) := by
    rw [tokens_eq_top]
    rfl
  constructor
  · intro h
    show (if (clean.filter (titleMatch (topic_tokens topic))).length
        < max 10 (int03 clean.length)
      then clean else clean.filter (titleMatch (topic_tokens topic))) = clean
    rw [hfil, if_pos h]
  · intro h
    show (if (clean.filter (titleMatch (topic_tokens topic))).length
        < max 10 (int03 clean.length)
      then clean else clean.filter (titleMatch (topic_tokens topic)))
      = clean.filter (specTitleMatch topic)
    rw [hfil, if_neg (Nat.not_lt.mpr h)]

/-- Witness for Claim C5's amended theorem: two deduped records, one
matching, below the threshold, so the stage passes both through. -/
theorem C5_witness :
    screen_title "green" [trec "one green", trec "blue"]
      = [trec "one green", trec "blue"] :=
  (C5_title_screen "green" [trec "one green", trec "blue"]).1 (by decide)

/-- tenacity `wait_exponential(multiplier=1, min=2, max=20)`: the delay after
the n-th failed attempt, `2^n` clamped into [2, 20]. -/
def wait_exp_1_2_20 (attempt : Nat) : Nat := max (max 0 2) (min (2 ^ attempt) 20)

/-- Trace of one retried generation call: attempts issued, delays waited,
final outcome. -/
structure RetryTrace (E α : Type) where
  calls : Nat
  delays : List Nat
  result : Except E α

/-- Attempt loop of the tenacity decorator on `GeminiWriter.generate`
(streamlit_app_gemini.py:255): `stop_after_attempt(5)` with
`retry_if_exception_type(Exception)` — any error triggers a retry while fuel
remains, and the last error propagates to the caller. -/
def tenacityGo {E α : Type} (f : Nat → Except E α) : Nat → Nat → List Nat → RetryTrace E α
  | 0, attempt, ds =>
    match f attempt with
    | Except.ok v => ⟨attempt, ds.reverse, Except.ok v⟩
    | Except.error e => ⟨attempt, ds.reverse, Except.error e⟩
  | fuel + 1, attempt, ds =>
    match f attempt with
    | Except.ok v => ⟨attempt, ds.reverse, Except.ok v⟩
    | Except.error _ => tenacityGo f fuel (attempt + 1) (wait_exp_1_2_20 attempt :: ds)

/-- `GeminiWriter.generate`: up to five attempts of the external call `f`
(indexed by attempt number), exponential backoff between attempts. -/
def generate_with_retry {E α : Type} (f : Nat → Except E α) : RetryTrace E α :=
  tenacityGo f 4 1 []

/-- One `write_section` call of `main` (streamlit_app_gemini.py:483-493):
generate with retry, then enforce citation integrity on the produced text;
a generation error propagates. -/
def write_section_model {E : Type} (f : Nat → Except E String) (n_sources : Nat) :
    Except E (List Char) :=
  match (generate_with_retry f).result with
  | Except.ok txt => Except.ok (enforce_citation_integrity txt.toList n_sources)
  | Except.error e => Except.error e

/-- The six sequential section generations of `main`
(streamlit_app_gemini.py:495-500): section `i` uses the per-attempt call
`g i`; the first failing section aborts the whole run — no try/except guards
the calls, so earlier completed sections are discarded with it. -/
def runSectionsGo {E : Type} (g : Nat → Nat → Except E String) (n : Nat) :
    Nat → Nat → Except E (List (List Char))
  | 0, _ => Except.ok []
  | k + 1, i => do
      let s ← write_section_model (g i) n
      let rest ← runSectionsGo g n k (i + 1)
      Except.ok (s :: rest)

/-- The whole six-section generation pass of `main`. -/
def runSections {E : Type} (g : Nat → Nat → Except E String) (n : Nat) :
    Except E (List (List Char)) :=
  runSectionsGo g n 6 1

theorem wait_exp_bounds (a : Nat) : 2 ≤ wait_exp_1_2_20 a ∧ wait_exp_1_2_20 a ≤ 20 := by
  unfold wait_exp_1_2_20
  constructor
  · exact le_max_of_le_left (by omega)
  · exact max_le (by omega) (min_le_right _ _)

theorem tenacityGo_calls {E α : Type} (f : Nat → Except E α) :
    ∀ (fuel attempt : Nat) (ds : List Nat),
      (tenacityGo f fuel attempt ds).calls ≤ attempt + fuel := by
  intro fuel
  induction fuel with
  | zero =>
    intro attempt ds
    cases hf : f attempt <;> simp [tenacityGo, hf]
  | succ fuel ih =>
    intro attempt ds
    cases hf : f attempt with
    | ok v => simp [tenacityGo, hf]
    | error e =>
      have h := ih (attempt + 1) (wait_exp_1_2_20 attempt :: ds)
      simp only [tenacityGo, hf]
      omega

theorem tenacityGo_delays {E α : Type} (f : Nat → Except E α) :
    ∀ (fuel attempt : Nat) (ds : List Nat),
      (∀ d ∈ ds, 2 ≤ d ∧ d ≤ 20) →
      ∀ d ∈ (tenacityGo f fuel attempt ds).delays, 2 ≤ d ∧ d ≤ 20 := by
  intro fuel
  induction fuel with
  | zero =>
    intro attempt ds hds d hd
    cases hf : f attempt <;>
      (rw [tenacityGo, hf] at hd; exact hds d (by simpa using hd))
  | succ fuel ih =>
    intro attempt ds hds d hd
    cases hf : f attempt with
    | ok v =>
      rw [tenacityGo, hf] at hd
      exact hds d (by simpa using hd)
    | error e =>
      rw [tenacityGo, hf] at hd
      refine ih (attempt + 1) _ ?_ d hd
      intro d2 hd2
      rcases List.mem_cons.mp hd2 with he | hm
      · exact he ▸ wait_exp_bounds attempt
      · exact hds d2 hm

theorem isOk_ok {E α : Type} (v : α) : (Except.ok v : Except E α).isOk = true := rfl

theorem isOk_error {E α : Type} (e : E) : (Except.error e : Except E α).isOk = false := rfl

theorem tenacityGo_allFail {E α : Type} (f : Nat → Except E α)
    (hf : ∀ a, (f a).isOk = false) :
    ∀ (fuel attempt : Nat) (ds : List Nat),
      (tenacityGo f fuel attempt ds).result.isOk = false := by
  intro fuel
  induction fuel with
  | zero =>
    intro attempt ds
    cases hfa : f attempt with
    | ok v =>
      have := hf attempt
      rw [hfa, isOk_ok] at this
      exact Bool.noConfusion this
    | error e => rw [tenacityGo, hfa]; exact isOk_error e
  | succ fuel ih =>
    intro attempt ds
    cases hfa : f attempt with
    | ok v =>
      have := hf attempt
      rw [hfa, isOk_ok] at this
      exact Bool.noConfusion this
    | error e => rw [tenacityGo, hfa]; exact ih _ _

theorem write_section_fails {E : Type} (f : Nat → Except E String) (n : Nat)
    (hf : ∀ a, (f a).isOk = false) :
    (write_section_model f n).isOk = false := by
  rw [write_section_model]
  cases hres : (generate_with_retry f).result with
  | ok v =>
    have := tenacityGo_allFail f hf 4 1 []
    rw [show (generate_with_retry f).result = (tenacityGo f 4 1 []).result from rfl] at hres
    rw [hres, isOk_ok] at this
    exact Bool.noConfusion this
  | error e => exact isOk_error e

theorem runSectionsGo_abort {E : Type} (g : Nat → Nat → Except E String) (n : Nat) :
    ∀ (k i j : Nat), i ≤ j → j < i + k → (∀ a, (g j a).isOk = false) →
      (runSectionsGo g n k i).isOk = false := by
  intro k
  induction k with
  | zero => intro i j h1 h2 _; omega
  | succ k ih =>
    intro i j h1 h2 hj
    show (do
        let s ← write_section_model (g i) n
        let rest ← runSectionsGo g n k (i + 1)
        Except.ok (s :: rest)).isOk = false
    by_cases hij : j = i
    · subst hij
      cases hw : write_section_model (g j) n with
      | ok s =>
        have := write_section_fails (g j) n hj
        rw [hw, isOk_ok] at this
        exact Bool.noConfusion this
      | error e => rfl
    · cases hw : write_section_model (g i) n with
      | error e => rfl
      | ok s =>
        have hrest := ih (i + 1) j (by omega) (by omega) hj
        cases hr : runSectionsGo g n k (i + 1) with
        | error e => rfl
        | ok rest =>
          rw [hr, isOk_ok] at hrest
          exact Bool.noConfusion hrest

/-- Per-attempt call table in which section 1 succeeds and every other
section always fails. -/
def failGen : Nat → Nat → Except Unit String :=
  fun sec _ => if sec = 1 then Except.ok "Doan 1 [1]" else Except.error ()

/-- Claim C6 counterexample: with a generator whose section 1 succeeds and
section 2 always raises, the retried call for section 2 exhausts its five
attempts and the whole run evaluates to an error: no output is produced, so
the already-completed section 1 is not kept, refuting "terminal for that one
section only and does not abort the whole run". -/
theorem C6_counterexample :
    (generate_with_retry (failGen 1)).result = Except.ok "Doan 1 [1]"
    ∧ runSections failGen 1 = Except.error ()
    ∧ ∀ out : List (List Char), runSections failGen 1 ≠ Except.ok out := by
  refine ⟨rfl, rfl, ?_⟩
  intro out h
  have h1 : (Except.error () : Except Unit (List (List Char))) = Except.ok out := by
    rw [← h]
    rfl
  exact Except.noConfusion h1

/-- Claim C6 (amended): the generation client issues at most 5 attempts, each
backoff delay lies in [2, 20], any exception is retried (an error on attempt
1 followed by success on attempt 2 yields that success after exactly 2
calls), and when one section's attempts are all exhausted the failure
propagates out of the run: the six-section pass returns an error rather than
keeping the completed sections. -/
theorem C6_retry_policy (E : Type) (f : Nat → Except E String)
    (g : Nat → Nat → Except E String) (n : Nat) :
    (generate_with_retry f).calls ≤ 5
    ∧ (∀ d ∈ (generate_with_retry f).delays, 2 ≤ d ∧ d ≤ 20)
    ∧ (∀ (e : E) (v : String), f 1 = Except.error e → f 2 = Except.ok v →
        (generate_with_retry f).result = Except.ok v ∧ (generate_with_retry f).calls = 2)
    ∧ (∀ j, 1 ≤ j → j ≤ 6 → (∀ a, (g j a).isOk = false) →
        (runSections g n).isOk = false) := by
  refine ⟨?_, ?_, ?_, ?_⟩
  · have h := tenacityGo_calls f 4 1 []
    simpa using h
  · exact tenacityGo_delays f 4 1 [] (by simp)
  · intro e v h1 h2
    constructor
    · show (tenacityGo f 4 1 []).result = Except.ok v
      rw [tenacityGo, h1, tenacityGo, h2]
    · show (tenacityGo f 4 1 []).calls = 2
      rw [tenacityGo, h1, tenacityGo, h2]
  · intro j h1 h2 hj
    exact runSectionsGo_abort g n 6 1 j h1 (by omega) hj

/-- Witness for Claim C6's amended theorem: the retry-then-succeed clause at
a concrete call table, and the abort clause at the concrete failing table. -/
theorem C6_witness :
    (generate_with_retry
        (fun a => if a = 1 then Except.error () else Except.ok "van ban")).result
      = Except.ok "van ban"
    ∧ (runSections failGen 1).isOk = false := by
  constructor
  · exact ((C6_retry_policy Unit
      (fun a => if a = 1 then Except.error () else Except.ok "van ban") failGen 1).2.2.1
      () "van ban" rfl rfl).1
  · exact (C6_retry_policy Unit
      (fun a => if a = 1 then Except.error () else Except.ok "van ban") failGen 1).2.2.2
      2 (by decide) (by decide) (fun a => rfl)

/-- Fuel-driven whitespace-run collapsing behind `clean_text`. -/
def collapseWsGo : Nat → List Char → List Char
  | 0, s => s
  | _ + 1, [] => []
  | fuel + 1, c :: cs =>
    if isPyWs c then ' ' :: collapseWsGo fuel (cs.dropWhile isPyWs)
    else c :: collapseWsGo fuel cs

/-- `clean_text` (streamlit_app_gemini.py:50): collapse every whitespace run
of `s or ""` to one space, then strip. -/
def clean_text (s : Option String) : String :=
  ⟨pyStripL (collapseWsGo (pyOrStr s "").toList.length (pyOrStr s "").toList)⟩

/-- Code-point order on character lists, the model of Python string
comparison inside tuple sorting. -/
def clLt : List Char → List Char → Bool
  | [], [] => false
  | [], _ :: _ => true
  | _ :: _, [] => false
  | a :: as, b :: bs => a.toNat < b.toNat || (a = b && clLt as bs)

/-- Strict lexicographic order on (position, word) pairs, as Python compares
the tuples built from an inverted index. -/
def pairLt (a b : Nat × List Char) : Bool :=
  a.1 < b.1 || (a.1 = b.1 && clLt a.2 b.2)

/-- Insertion step of `positions.sort()`. -/
def insertPair (x : Nat × List Char) : List (Nat × List Char) → List (Nat × List Char)
  | [] => [x]
  | y :: ys => if pairLt x y then x :: y :: ys else y :: insertPair x ys

/-- `positions.sort()`: ascending by position, then word. -/
def sortPairs (l : List (Nat × List Char)) : List (Nat × List Char) := l.foldr insertPair []

/-- Space-joined word list (`" ".join(...)`). -/
def joinSpace : List (List Char) → List Char
  | [] => []
  | [w] => w
  | w :: ws => w ++ ' ' :: joinSpace ws

/-- `reconstruct_openalex_abstract` (streamlit_app_gemini.py:88): empty for a
non-dict or empty value, else all (position, word) pairs of the inverted
index sorted ascending and their words joined by single spaces.  Index
positions are the non-negative ints OpenAlex serves. -/
def reconstruct_openalex_abstract (inv : PyVal) : String :=
  match inv with
  | PyVal.dict d =>
    if d.isEmpty then ""
    else
      let pairs := (d.map (fun p =>
        match p.2 with
        | PyVal.list idxs => idxs.filterMap (fun i =>
            match i with
            | PyVal.int (Int.ofNat n) => some (n, p.1.toList)
            | _ => Option.none)
        | _ => [])).join
      ⟨joinSpace ((sortPairs pairs).map (fun q => q.2))⟩
  | _ => ""

/-- One raw OpenAlex work, the JSON shape read by the per-item loop:
string-or-null values as `Option String`, dict-or-null values as optional
association lists, `authorships` a list of dicts. -/
structure OAItem where
  id : PyVal
  title : Option String
  abstract : Option String
  abstract_inverted_index : PyVal
  doi : Option String
  primary_location : Option (List (String × PyVal))
  publication_year : PyVal
  publication_date : PyVal
  host_venue : Option (List (String × PyVal))
  authorships : List (List (String × PyVal))

/-- String-or-null JSON value to the record's Option field. -/
def pyOptStr : PyVal → Option String
  | PyVal.str s => some s
  | _ => Option.none

/-- `(au.get("author") or {}).get("display_name")` for one authorship; the
"author" value is a dict or null in OpenAlex responses. -/
def authorship_name (au : List (String × PyVal)) : PyVal :=
  match (if pyTruthy (pyGet au "author") then pyGet au "author" else PyVal.dict []) with
  | PyVal.dict d2 => pyGet d2 "display_name"
  | _ => PyVal.none

/-- Body of the per-item loop of `openalex_search`
(streamlit_app_gemini.py:133-158): the canonical record dict appended for one
raw work.  No "landing_page" key is ever written. -/
def itemToRecord (it : OAItem) : Record :=
  let title := clean_text it.title
  let abstract := if optTruthy it.abstract then clean_text it.abstract
                  else reconstruct_openalex_abstract it.abstract_inverted_index
  let pl := it.primary_location.getD []
  let landing := pyOptStr (pyGet pl "landing_page_url")
  let oa := pyOptStr (pyGet pl "pdf_url")
  let year := year_from_date (if pyTruthy it.publication_year then it.publication_year
                              else it.publication_date)
  let venue := pyOptStr (pyGet (it.host_venue.getD []) "display_name")
  let authors := (it.authorships.map authorship_name).filter pyTruthy
  ⟨it.id, some title, some abstract, it.doi, landing, oa, Option.none,
    (match year with | some y => PyVal.int y | Option.none => PyVal.none),
    venue, PyVal.list authors⟩

/-- One OpenAlex search response: the results array and
`meta.get("next_cursor")`. -/
structure OAPage where
  results : List OAItem
  next_cursor : PyVal

/-- Trace of one `openalex_search` run: the cursors requested, in order, and
the outcome. -/
structure OATrace where
  requests : List String
  result : Except Unit (List Record)

/-- Page loop of `openalex_search` (streamlit_app_gemini.py:124-163): at most
`max_pages` iterations of `requests.get` + `raise_for_status` + `.json()`,
modelled by `fetch` on the cursor (the other query parameters are fixed for
the run); an error covers transport failures and non-2xx statuses and makes
the exception propagate — the accumulated records are lost.  A falsy
`next_cursor` ends pagination with the records collected so far. -/
def oaLoop (fetch : String → Except Unit OAPage) :
    Nat → String → List Record → List String → OATrace
  | 0, _, acc, reqs => ⟨reqs.reverse, Except.ok acc⟩
  | n + 1, cursor, acc, reqs =>
    match fetch cursor with
    | Except.error _ => ⟨(cursor :: reqs).reverse, Except.error ()⟩
    | Except.ok page =>
      let acc2 := acc ++ page.results.map itemToRecord
      if pyTruthy page.next_cursor
      then oaLoop fetch n (pyStr page.next_cursor) acc2 (cursor :: reqs)
      else ⟨(cursor :: reqs).reverse, Except.ok acc2⟩

/-- `openalex_search` under a fetch oracle: the loop from the initial
cursor "*". -/
def openalex_search (fetch : String → Except Unit OAPage) (max_pages : Nat) : OATrace :=
  oaLoop fetch max_pages "*" [] []

theorem oaLoop_spec (fetch : String → Except Unit OAPage) :
    ∀ (n : Nat) (cursor : String) (acc : List Record) (reqs : List String),
      (oaLoop fetch n cursor acc reqs).requests.length ≤ reqs.length + n
      ∧ (∀ c ∈ (oaLoop fetch n cursor acc reqs).requests, c ∉ reqs →
          fetch c = Except.error () →
          (oaLoop fetch n cursor acc reqs).result = Except.error ()) := by
  intro n
  induction n with
  | zero =>
    intro cursor acc reqs
    constructor
    · simp [oaLoop]
    · intro c hc hnotin _
      rw [oaLoop] at hc
      rw [List.mem_reverse] at hc
      exact absurd hc hnotin
  | succ n ih =>
    intro cursor acc reqs
    cases hf : fetch cursor with
    | error e =>
      constructor
      · rw [oaLoop, hf]
        simp
      · intro c _ _ _
        rw [oaLoop, hf]
    | ok page =>
      by_cases hnc : pyTruthy page.next_cursor = true
      · have hloop : oaLoop fetch (n + 1) cursor acc reqs
            = oaLoop fetch n (pyStr page.next_cursor)
                (acc ++ page.results.map itemToRecord) (cursor :: reqs) := by
          rw [oaLoop, hf]
          exact if_pos hnc
        obtain ⟨hlen, hmem⟩ := ih (pyStr page.next_cursor)
          (acc ++ page.results.map itemToRecord) (cursor :: reqs)
        constructor
        · rw [hloop]
          refine le_trans hlen ?_
          simp
          omega
        · intro c hc hnotin herr
          rw [hloop] at hc ⊢
          by_cases hcc : c = cursor
          · subst hcc
            rw [hf] at herr
            exact Except.noConfusion herr
          · refine hmem c hc ?_ herr
            intro hmem2
            rcases List.mem_cons.mp hmem2 with he | hm
            · exact hcc he
            · exact hnotin hm
      · have hloop : oaLoop fetch (n + 1) cursor acc reqs
            = ⟨(cursor :: reqs).reverse,
                Except.ok (acc ++ page.results.map itemToRecord)⟩ := by
          rw [oaLoop, hf]
          exact if_neg hnc
        constructor
        · rw [hloop]
          simp
        · intro c hc hnotin herr
          rw [hloop] at hc
          simp only [List.mem_reverse] at hc
          rcases List.mem_cons.mp hc with he | hm
          · subst he
            rw [hf] at herr
            exact Except.noConfusion herr
          · exact absurd hm hnotin

/-- Claim C7 (amended): for every fetch oracle, the retriever issues at most
`max_pages` page requests regardless of available results; and a transport or
non-2xx error on any requested page makes the whole call evaluate to that
error — the exception propagates past the caller and the raw records
collected from earlier pages are discarded, not returned. -/
theorem C7_retriever_requests (fetch : String → Except Unit OAPage) (max_pages : Nat) :
    (openalex_search fetch max_pages).requests.length ≤ max_pages
    ∧ (∀ c ∈ (openalex_search fetch max_pages).requests,
        fetch c = Except.error () →
        (openalex_search fetch max_pages).result = Except.error ()) := by
  obtain ⟨hlen, hmem⟩ := oaLoop_spec fetch max_pages "*" [] []
  constructor
  · simpa using hlen
  · intro c hc herr
    exact hmem c hc (by simp) herr

/-- Raw OpenAlex work exercising the normalizer fields. -/
def exItem : OAItem :=
  ⟨PyVal.str "W1", some "T  one", some "Abs text", PyVal.none, some "10.1/z",
    some [("landing_page_url", PyVal.str "http://l"), ("pdf_url", PyVal.none)],
    PyVal.int 2019, PyVal.none, some [("display_name", PyVal.str "Venue")],
    [[("author", PyVal.dict [("display_name", PyVal.str "Ann")])]]⟩

/-- Fetch oracle whose first page succeeds with one work and a continuation
cursor, and whose second page fails. -/
def exFetch : String → Except Unit OAPage :=
  fun c => if c = "*" then Except.ok ⟨[exItem], PyVal.str "c2"⟩ else Except.error ()

/-- Claim C7 counterexample: page 1 succeeds and yields one record, page 2
fails; `openalex_search` evaluates to the propagated error, not to the
record collected from page 1 — there is no try/except around `requests.get`
or `raise_for_status`, so partial results are not returned. -/
theorem C7_counterexample :
    (openalex_search exFetch 3).requests = ["*", "c2"]
    ∧ (openalex_search exFetch 3).result = Except.error ()
    ∧ ∀ recs : List Record, (openalex_search exFetch 3).result ≠ Except.ok recs := by
  refine ⟨rfl, rfl, ?_⟩
  intro recs h
  have h1 : (Except.error () : Except Unit (List Record)) = Except.ok recs := by
    rw [← h]
    rfl
  exact Except.noConfusion h1

/-- Witness for Claim C7's amended theorem at the concrete failing oracle. -/
theorem C7_witness :
    (openalex_search exFetch 3).requests.length ≤ 3
    ∧ (openalex_search exFetch 3).result = Except.error () := by
  refine ⟨(C7_retriever_requests exFetch 3).1, ?_⟩
  have hreq : "c2" ∈ (openalex_search exFetch 3).requests := by
    have h : (openalex_search exFetch 3).requests = ["*", "c2"] := rfl
    rw [h]
    decide
  exact (C7_retriever_requests exFetch 3).2 "c2" hreq rfl
